import Mathlib

/-!
Verification of the starlette-admin tortoise adapter utilities
(`starlette_admin/contrib/tortoise/utils.py`) and of the test-suite
authentication provider (`tests/test_auth.py`).

Python strings are embedded as `String` (or `List Char` where character-level
splitting matters), Python dicts as association lists in insertion order with
unique keys, Python `None` / nested dicts / other values as the inductive
`PyVal`.  A Python function that can raise is embedded as an `Option`-valued
function, `Option.none` standing for the raised exception.
-/

namespace StarletteAdminTortoise

/-- Python `s.split(sep)` for a one-character non-empty separator:
splitting `[]` gives `[[]]`, and every occurrence of the separator starts a
new (possibly empty) chunk. -/
def pySplit (sep : Char) : List Char → List (List Char)
  | [] => [[]]
  | c :: rest =>
    if c = sep then [] :: pySplit sep rest
    else
      match pySplit sep rest with
      | [] => [[c]]
      | p :: ps => (c :: p) :: ps

/-- Sequencing of fallible per-element computations, embedding Python's
`tuple(map(f, xs))` when `f` may raise: the first exception aborts the whole
construction. -/
def optionTraverse (f : α → Option β) : List α → Option (List β)
  | [] => some []
  | x :: xs =>
    match f x with
    | Option.none => Option.none
    | some y =>
      match optionTraverse f xs with
      | Option.none => Option.none
      | some ys => some (y :: ys)

/-- Embedding of the inner `convert` of
`starlette_admin_order_by2tortoise_order_by`:
`field_part, order_part = order_by.split(" ")` (raising unless the split has
exactly two parts, modelled as `Option.none`), then
`order_part = "" if order_by == "acs" else "-"` — note the comparison is
against the WHOLE directive string and the literal `"acs"`, exactly as in the
source — and finally the concatenation of marker and field part. -/
def convertOrderBy (order_by : List Char) : Option (List Char) :=
  match pySplit ' ' order_by with
  | [field_part, _order_part] =>
    let order_part : List Char := if order_by = ['a', 'c', 's'] then [] else ['-']
    some (order_part ++ field_part)
  | _ => Option.none

/-- Embedding of `starlette_admin_order_by2tortoise_order_by`:
`tuple(map(convert, order_bys))`. -/
def starlette_admin_order_by2tortoise_order_by (order_bys : List (List Char)) :
    Option (List (List Char)) :=
  optionTraverse convertOrderBy order_bys

/-- A Python value as seen by `remove_nones`: `None`, a nested dict
(an association list of string keys in insertion order), or any other value
(opaque, carried by a `Nat` tag). -/
inductive PyVal where
  | pyNone : PyVal
  | dict : List (String × PyVal) → PyVal
  | atom : Nat → PyVal

/-- Embedding of `remove_nones`: the dict comprehension
keeps every pair whose value is not `None`, recursively cleaning dict
values, and preserves the order of the remaining pairs. -/
def remove_nones : List (String × PyVal) → List (String × PyVal)
  | [] => []
  | (_, PyVal.pyNone) :: rest => remove_nones rest
  | (k, PyVal.dict d) :: rest => (k, PyVal.dict (remove_nones d)) :: remove_nones rest
  | (k, PyVal.atom a) :: rest => (k, PyVal.atom a) :: remove_nones rest

/-- What `remove_nones` does to a single kept value: dict values are cleaned
recursively, any other value passes through unchanged. -/
def cleanVal : PyVal → PyVal
  | PyVal.dict d => PyVal.dict (remove_nones d)
  | v => v

/-- One step of a Python dict comprehension: inserting under a key that is
already present keeps its position but overwrites the value; a fresh key goes
to the end. -/
def dictInsert (l : List (String × α)) (k : String) (v : α) : List (String × α) :=
  if (l.map Prod.fst).contains k then
    l.map (fun p => if p.1 = k then (k, v) else p)
  else l ++ [(k, v)]

/-- The `convert` lambda of `add_id2fk_fields`: append `"_id"` to keys found
in the foreign-key name set, leave the rest alone. -/
def add_id2fk_convert (fk_fields_ : List String) (k : String) : String :=
  if fk_fields_.contains k then k ++ "_id" else k

/-- Embedding of `add_id2fk_fields`: the dict comprehension
`{convert(k): v for k, v in data.items()}` as a left-to-right sequence of
dict insertions (`dictInsert` rather than a plain map, because two input
keys can collide on the same output key, in which case the later value
overwrites the earlier one — Python dict semantics). -/
def add_id2fk_fields (data : List (String × α)) (fields : List String) :
    List (String × α) :=
  data.foldl (fun acc p => dictInsert acc (add_id2fk_convert fields p.1) p.2) []

/-- The tortoise field classes used as keys of the mapping table, plus
`other` for any field class that is not a key (e.g. `JSONField`). -/
inductive TortoiseFieldType where
  | IntField | BigIntField | SmallIntField | IntEnumField
  | CharField | CharEnumField | BooleanField | DateField
  | DatetimeField | FloatField | DecimalField | UUIDField
  | ForeignKeyFieldInstance | OneToOneFieldInstance | ManyToManyFieldInstance
  | TextField | TimeField
  | other (class_name : String)
deriving DecidableEq

/-- The starlette-admin field classes appearing as values of the mapping
table. -/
inductive StarletteFieldCtor where
  | IntegerField | IntEnum | StringField | EnumField | BooleanField
  | DateField | DateTimeField | FloatField | DecimalField
  | HasOne | HasMany | TinyMCEEditorField | TimeField
deriving DecidableEq

/-- Embedding of the dict literal `tortoise2starlette_admin_fields_mapper`,
entry for entry and in source order; a Python dict lookup on the type object
is `List.lookup` on this association list. -/
def tortoise2starlette_admin_fields_mapper :
    List (TortoiseFieldType × StarletteFieldCtor) :=
  [(TortoiseFieldType.IntField, StarletteFieldCtor.IntegerField),
   (TortoiseFieldType.BigIntField, StarletteFieldCtor.IntegerField),
   (TortoiseFieldType.SmallIntField, StarletteFieldCtor.IntegerField),
   (TortoiseFieldType.IntEnumField, StarletteFieldCtor.IntEnum),
   (TortoiseFieldType.CharField, StarletteFieldCtor.StringField),
   (TortoiseFieldType.CharEnumField, StarletteFieldCtor.EnumField),
   (TortoiseFieldType.BooleanField, StarletteFieldCtor.BooleanField),
   (TortoiseFieldType.DateField, StarletteFieldCtor.DateField),
   (TortoiseFieldType.DatetimeField, StarletteFieldCtor.DateTimeField),
   (TortoiseFieldType.FloatField, StarletteFieldCtor.FloatField),
   (TortoiseFieldType.DecimalField, StarletteFieldCtor.DecimalField),
   (TortoiseFieldType.UUIDField, StarletteFieldCtor.StringField),
   (TortoiseFieldType.ForeignKeyFieldInstance, StarletteFieldCtor.HasOne),
   (TortoiseFieldType.OneToOneFieldInstance, StarletteFieldCtor.HasOne),
   (TortoiseFieldType.ManyToManyFieldInstance, StarletteFieldCtor.HasMany),
   (TortoiseFieldType.TextField, StarletteFieldCtor.TinyMCEEditorField),
   (TortoiseFieldType.TimeField, StarletteFieldCtor.TimeField)]

/-- An ORM field descriptor with the attributes `related_starlette_field`
reads: its concrete class, `required`, `max_length` (character fields),
`enum_type` (char-enum fields, carried as an opaque tag), the two datetime
auto-population flags, and `model_name` (relation fields). -/
structure TortoiseField where
  ftype : TortoiseFieldType
  required : Bool
  max_length : Nat
  enum_type : String
  auto_now_add : Bool
  auto_now : Bool
  model_name : String
deriving DecidableEq

/-- The per-field `**configs` dict of `related_starlette_field`: each
component is `some v` when the corresponding key is present.  `app_name`
stands for the `"_app_name_"` entry; the remaining components are the
overrides `update(configs)` can apply to the constructor kwargs. -/
structure FieldConfigs where
  type : Option StarletteFieldCtor
  app_name : Option String
  name : Option String
  label : Option String
  required : Option Bool
  identity : Option String
  maxlength : Option Nat
  enum : Option String
deriving DecidableEq

/-- An empty `configs` dict. -/
def defaultConfigs : FieldConfigs :=
  ⟨Option.none, Option.none, Option.none, Option.none,
   Option.none, Option.none, Option.none, Option.none⟩

/-- A `configs` dict holding only the `"_app_name_"` entry. -/
def configsWithApp (app : Option String) : FieldConfigs :=
  { defaultConfigs with app_name := app }

/-- Embedding of `identity`: `app_name` followed by an underscore when
`app_name` is truthy (present and non-empty) else the empty string, followed
by `model_name.split('.')[-1].lower()`. -/
def identity (model_name : String) (app_name : Option String) : String :=
  let ap : String :=
    match app_name with
    | some s => if s = "" then "" else s ++ "_"
    | Option.none => ""
  ap ++ String.mk (((pySplit '.' model_name.data).getLastD []).map Char.toLower)

/-- Modelled from the spec wording, for comparison with `identity`: "the last
dot-separated segment of the related model's name" is the suffix of the name
after its last dot (the whole name when it has no dot). -/
def lastDotSegmentSpec (s : String) : List Char :=
  (s.data.reverse.takeWhile (fun c => c != '.')).reverse

/-- Modelled from the spec wording, for comparison with `identity`: the last
dot-separated segment of the related model's name lowercased, prefixed by the
application prefix and an underscore when a non-empty prefix is supplied and
unprefixed otherwise. -/
def identitySpec (model_name : String) (app_name : Option String) : String :=
  (match app_name with
   | some s => if s = "" then "" else s ++ "_"
   | Option.none => "") ++
  String.mk ((lastDotSegmentSpec model_name).map Char.toLower)

/-- The UI field produced by applying the selected starlette field
constructor to its keyword arguments: the chosen constructor plus the kwargs
that `related_starlette_field` can pass. -/
structure StarletteField where
  ctor : StarletteFieldCtor
  name : String
  label : String
  required : Bool
  identity : Option String
  maxlength : Option Nat
  enum : Option String
deriving DecidableEq

/-- Embedding of `related_starlette_field`.  The constructor is
`configs.pop("type", None) or mapper[type(field)]` — `Option.none` embeds the
`KeyError` when the type is unmapped and no override is given.  The kwargs
start as name/label/required, are specialised by the `if`/`elif` chain on the
field class (identity for foreign-key and one-to-one, maxlength for char,
enum for char-enum, the auto-now adjusted required flag for datetime), and
are finally overridden by the remaining `configs` entries, `"_app_name_"`
being discarded. -/
def related_starlette_field (field_map_item : String × TortoiseField)
    (configs : FieldConfigs) : Option StarletteField :=
  let nm := field_map_item.1
  let field := field_map_item.2
  let looked : Option StarletteFieldCtor :=
    match configs.type with
    | some t => some t
    | Option.none => List.lookup field.ftype tortoise2starlette_admin_fields_mapper
  match looked with
  | Option.none => Option.none
  | some starlette_field_type =>
    let base : StarletteField :=
      ⟨starlette_field_type, nm, nm, field.required,
       Option.none, Option.none, Option.none⟩
    let kw : StarletteField :=
      if field.ftype = TortoiseFieldType.ForeignKeyFieldInstance ∨
          field.ftype = TortoiseFieldType.OneToOneFieldInstance then
        { base with identity := some (identity field.model_name configs.app_name) }
      else if field.ftype = TortoiseFieldType.CharField then
        { base with maxlength := some field.max_length }
      else if field.ftype = TortoiseFieldType.CharEnumField then
        { base with enum := some field.enum_type }
      else if field.ftype = TortoiseFieldType.DatetimeField then
        { base with required := field.required && !field.auto_now_add && !field.auto_now }
      else base
    some ⟨kw.ctor,
      (configs.name).getD kw.name,
      (configs.label).getD kw.label,
      (configs.required).getD kw.required,
      (match configs.identity with
       | some i => some i
       | Option.none => kw.identity),
      (match configs.maxlength with
       | some m => some m
       | Option.none => kw.maxlength),
      (match configs.enum with
       | some e => some e
       | Option.none => kw.enum)⟩

/-- A bound model as `tortoise_fields2starlette_fields` consumes it: its
`_meta.fields_map`, an association list of field name to field descriptor. -/
structure TortoiseModel where
  fields_map : List (String × TortoiseField)

/-- The merge of the passed application name into the per-field configs: the
per-field configs win when they carry their own `"_app_name_"` entry. -/
def mergeAppName (app : String) (c : FieldConfigs) : FieldConfigs :=
  { c with app_name :=
      match c.app_name with
      | some x => some x
      | Option.none => some app }

/-- Embedding of `tortoise_fields2starlette_fields`: one
`related_starlette_field` call per `fields_map` item, the per-field configs
taken from `kwargs` by field name; the first `KeyError` aborts the tuple
construction. -/
def tortoise_fields2starlette_fields (model : TortoiseModel) (app_name_ : String)
    (kwargs : List (String × FieldConfigs)) : Option (List StarletteField) :=
  optionTraverse
    (fun i => related_starlette_field i
      (mergeAppName app_name_ ((List.lookup i.1 kwargs).getD defaultConfigs)))
    model.fields_map

/-- Outcome of `MyAuthProvider.login` in `tests/test_auth.py`: a
`FormValidationError` carrying per-field messages, a `LoginFailed` with its
message, or the returned response carrying the cookies set on it. -/
inductive LoginResult where
  | formValidationError (errors : List (String × String))
  | loginFailed (msg : String)
  | success (cookies : List (String × String))
deriving DecidableEq

/-- The static username-to-roles table `users` of `tests/test_auth.py`. -/
def users : List (String × List String) :=
  [("admin", ["admin"]),
   ("john", ["post:list", "post:detail"]),
   ("terry", ["post:list", "post:create", "post:edit"]),
   ("doe", [""])]

/-- Embedding of `MyAuthProvider.login`: usernames shorter than 3 characters
raise a `FormValidationError` on the username field; a known username with
the password "password" sets the session cookie to the username on the
response and returns it; anything else raises `LoginFailed`. -/
def MyAuthProvider_login (username password : String) : LoginResult :=
  if username.length < 3 then
    LoginResult.formValidationError
      [("username", "Ensure username has at least 03 characters")]
  else if (List.lookup username users).isSome ∧ password = "password" then
    LoginResult.success [("session", username)]
  else LoginResult.loginFailed "Invalid username or password"

/-- The cookies set by a login outcome: none unless a response is returned. -/
def loginCookies : LoginResult → List (String × String)
  | LoginResult.success cs => cs
  | _ => []

theorem pySplit_ne_nil (sep : Char) (l : List Char) : pySplit sep l ≠ [] := by
  induction l with
  | nil => simp [pySplit]
  | cons c rest ih =>
    simp only [pySplit]
    split
    · simp
    · split
      · simp
      · simp

/-- The number of chunks returned by `pySplit` is one more than the number of
separators, exactly as for Python's `str.split` with an explicit separator. -/
theorem pySplit_length (sep : Char) (l : List Char) :
    (pySplit sep l).length = l.count sep + 1 := by
  induction l with
  | nil => simp [pySplit]
  | cons c rest ih =>
    simp only [pySplit]
    by_cases h : c = sep
    · subst h
      simp [ih, List.count_cons]
    · simp only [if_neg h]
      rcases hs : pySplit sep rest with _ | ⟨p, ps⟩
      · exact absurd hs (pySplit_ne_nil sep rest)
      · have := ih
        rw [hs] at this
        simp only [List.length_cons] at this ⊢
        rw [List.count_cons, if_neg (by simpa using h)]
        omega

theorem optionTraverse_eq_none_of_mem (f : α → Option β) (l : List α) (x : α)
    (hx : x ∈ l) (hf : f x = Option.none) : optionTraverse f l = Option.none := by
  induction l with
  | nil => cases hx
  | cons a as ih =>
    rcases List.mem_cons.mp hx with hx | hx
    · subst hx
      simp [optionTraverse, hf]
    · simp only [optionTraverse]
      rcases h : f a with _ | y
      · rfl
      · rw [ih hx]

theorem optionTraverse_length (f : α → Option β) (l : List α)
    (h : ∀ x ∈ l, (f x).isSome) :
    ∃ res, optionTraverse f l = some res ∧ res.length = l.length := by
  induction l with
  | nil => exact ⟨[], rfl, rfl⟩
  | cons a as ih =>
    rcases hfa : f a with _ | y
    · have := h a (List.mem_cons_self a as)
      rw [hfa] at this
      cases this
    · obtain ⟨res, hres, hlen⟩ := ih (fun x hx => h x (List.mem_cons_of_mem a hx))
      refine ⟨y :: res, ?_, by simp [hlen]⟩
      simp [optionTraverse, hfa, hres]

theorem remove_nones_idem (l : List (String × PyVal)) :
    remove_nones (remove_nones l) = remove_nones l := by
  induction l using remove_nones.induct with
  | case1 => simp [remove_nones]
  | case2 k rest ih => simpa [remove_nones] using ih
  | case3 k d rest ihd ihr => simp [remove_nones, ihd, ihr]
  | case4 k a rest ih => simp [remove_nones, ih]

theorem keys_remove_nones_subset (l : List (String × PyVal)) (k : String)
    (h : k ∈ (remove_nones l).map Prod.fst) : k ∈ l.map Prod.fst := by
  induction l with
  | nil => rw [remove_nones] at h; exact absurd h (by simp)
  | cons p rest ih =>
    rcases p with ⟨k', v⟩
    cases v with
    | pyNone =>
      rw [remove_nones] at h
      simp only [List.map_cons, List.mem_cons]
      exact Or.inr (ih h)
    | dict d =>
      rw [remove_nones] at h
      simp only [List.map_cons, List.mem_cons] at h ⊢
      rcases h with h | h
      · exact Or.inl h
      · exact Or.inr (ih h)
    | atom a =>
      rw [remove_nones] at h
      simp only [List.map_cons, List.mem_cons] at h ⊢
      rcases h with h | h
      · exact Or.inl h
      · exact Or.inr (ih h)

theorem mem_remove_nones_of_mem (l : List (String × PyVal)) (k : String) (v : PyVal)
    (hmem : (k, v) ∈ l) (hv : v ≠ PyVal.pyNone) :
    (k, cleanVal v) ∈ remove_nones l := by
  induction l with
  | nil => cases hmem
  | cons p rest ih =>
    rcases p with ⟨k', v'⟩
    rcases List.mem_cons.mp hmem with h | h
    · injection h with h1 h2
      subst h1
      subst h2
      cases v with
      | pyNone => exact absurd rfl hv
      | dict d => rw [remove_nones]; exact List.mem_cons_self _ _
      | atom a => rw [remove_nones]; exact List.mem_cons_self _ _
    · cases v' with
      | pyNone => rw [remove_nones]; exact ih h
      | dict d => rw [remove_nones]; exact List.mem_cons_of_mem _ (ih h)
      | atom a => rw [remove_nones]; exact List.mem_cons_of_mem _ (ih h)

theorem pyNone_key_not_mem_remove_nones (l : List (String × PyVal)) (k : String)
    (hnd : (l.map Prod.fst).Nodup) (hmem : (k, PyVal.pyNone) ∈ l) :
    k ∉ (remove_nones l).map Prod.fst := by
  induction l with
  | nil => cases hmem
  | cons p rest ih =>
    rcases p with ⟨k', v'⟩
    simp only [List.map_cons, List.nodup_cons] at hnd
    obtain ⟨hk', hnd⟩ := hnd
    rcases List.mem_cons.mp hmem with h | h
    · injection h with h1 h2
      subst h1
      rw [← h2, remove_nones]
      intro hc
      exact hk' (keys_remove_nones_subset rest k hc)
    · have hkne : k ≠ k' := by
        intro he
        exact hk' (he ▸ List.mem_map_of_mem Prod.fst h)
      cases v' with
      | pyNone => rw [remove_nones]; exact ih hnd h
      | dict d =>
        rw [remove_nones]
        simp only [List.map_cons, List.mem_cons]
        rintro (hc | hc)
        · exact hkne hc
        · exact ih hnd h hc
      | atom a =>
        rw [remove_nones]
        simp only [List.map_cons, List.mem_cons]
        rintro (hc | hc)
        · exact hkne hc
        · exact ih hnd h hc

theorem convertOrderBy_isSome (o : List Char) (h : o.count ' ' = 1) :
    (convertOrderBy o).isSome := by
  have hlen : (pySplit ' ' o).length = 2 := by rw [pySplit_length, h]
  rcases hs : pySplit ' ' o with _ | ⟨a, rest⟩
  · rw [hs] at hlen; simp at hlen
  · rcases rest with _ | ⟨b, rest2⟩
    · rw [hs] at hlen; simp at hlen
    · rcases rest2 with _ | ⟨c, rest3⟩
      · unfold convertOrderBy
        rw [hs]
        rfl
      · rw [hs] at hlen; simp at hlen

theorem pySplit_of_not_mem (sep : Char) (l : List Char) (h : sep ∉ l) :
    pySplit sep l = [l] := by
  induction l with
  | nil => rfl
  | cons c rest ih =>
    have hc : ¬ c = sep := fun he => h (he ▸ List.mem_cons_self c rest)
    have hr : sep ∉ rest := fun hm => h (List.mem_cons_of_mem c hm)
    simp only [pySplit, if_neg hc, ih hr]

theorem takeWhile_eq_self_of_all (p : Char → Bool) (l : List Char)
    (h : ∀ x ∈ l, p x) : l.takeWhile p = l := by
  induction l with
  | nil => rfl
  | cons a as ih =>
    rw [List.takeWhile_cons, if_pos (h a (List.mem_cons_self a as))]
    rw [ih (fun x hx => h x (List.mem_cons_of_mem a hx))]

theorem takeWhile_eq_of_length (p : Char → Bool) (l : List Char)
    (h : (l.takeWhile p).length = l.length) : l.takeWhile p = l := by
  induction l with
  | nil => rfl
  | cons a as ih =>
    rw [List.takeWhile_cons] at h ⊢
    by_cases hpa : p a = true
    · rw [if_pos hpa] at h ⊢
      simp only [List.length_cons] at h
      rw [ih (by omega)]
    · rw [if_neg hpa] at h
      simp at h

theorem length_takeWhile_ne (p : Char → Bool) (l : List Char) (x : Char)
    (hx : x ∈ l) (hpx : p x = false) : (l.takeWhile p).length ≠ l.length := by
  induction l with
  | nil => cases hx
  | cons a as ih =>
    rw [List.takeWhile_cons]
    by_cases hpa : p a = true
    · rcases List.mem_cons.mp hx with h | h
      · rw [h] at hpx
        rw [hpx] at hpa
        exact absurd hpa (by simp)
      · rw [if_pos hpa]
        intro hc
        apply ih h
        simp only [List.length_cons] at hc
        omega
    · rw [if_neg hpa]
      simp

/-- The last chunk of a Python split is the suffix after the last separator:
the bridge between the implementation's split-and-index and the spec's
"last dot-separated segment". -/
theorem pySplit_getLastD (sep : Char) (l : List Char) :
    (pySplit sep l).getLastD []
      = (l.reverse.takeWhile (fun c => c != sep)).reverse := by
  induction l with
  | nil => simp [pySplit]
  | cons c rest ih =>
    by_cases hc : c = sep
    · subst hc
      have hstep : pySplit c (c :: rest) = [] :: pySplit c rest := by
        simp [pySplit]
      rw [hstep, List.getLastD_cons, List.reverse_cons, List.takeWhile_append]
      by_cases hlen : (List.takeWhile (fun x => x != c) rest.reverse).length
          = rest.reverse.length
      · rw [if_pos hlen]
        have hself := takeWhile_eq_of_length _ _ hlen
        rw [hself] at ih
        have hc1 : List.takeWhile (fun x => x != c) [c] = [] := by simp
        rw [hc1, List.append_nil]
        exact ih
      · rw [if_neg hlen]
        exact ih
    · have hstep : pySplit sep (c :: rest)
          = match pySplit sep rest with
            | [] => [[c]]
            | p :: ps => (c :: p) :: ps := by
        simp [pySplit, hc]
      rcases hs : pySplit sep rest with _ | ⟨p0, ps⟩
      · exact absurd hs (pySplit_ne_nil sep rest)
      · rw [hs] at hstep
        rcases ps with _ | ⟨q, qs⟩
        · have hcount : rest.count sep = 0 := by
            have h2 := pySplit_length sep rest
            rw [hs] at h2
            simpa using h2.symm
          have hnm : sep ∉ rest := List.count_eq_zero.mp hcount
          have hp0 : p0 = rest := by
            have h2 := pySplit_of_not_mem sep rest hnm
            rw [hs] at h2
            injection h2
          rw [hstep, List.getLastD_cons, List.getLastD_nil, hp0]
          rw [List.reverse_cons, List.takeWhile_append]
          have hall : List.takeWhile (fun x => x != sep) rest.reverse = rest.reverse :=
            takeWhile_eq_self_of_all _ _ (fun x hx => by
              have hxs : x ≠ sep := fun he => hnm (he ▸ List.mem_reverse.mp hx)
              simpa using hxs)
          rw [if_pos (by rw [hall])]
          have hcp : List.takeWhile (fun x => x != sep) [c] = [c] := by
            simp [List.takeWhile_cons, hc]
          rw [hcp]
          simp
        · have hmem : sep ∈ rest := by
            have h2 := pySplit_length sep rest
            rw [hs] at h2
            have hcz : rest.count sep ≠ 0 := by
              simp only [List.length_cons] at h2
              omega
            exact List.count_pos_iff.mp (Nat.pos_of_ne_zero hcz)
          rw [hstep, List.getLastD_cons]
          rw [hs, List.getLastD_cons] at ih
          rw [List.reverse_cons, List.takeWhile_append]
          rw [if_neg (length_takeWhile_ne _ _ sep (List.mem_reverse.mpr hmem) (by simp))]
          exact ih

/-- The implementation's identity string agrees with the spec's description:
the last dot-separated segment of the model name, lowercased, with the
optional application prefix. -/
theorem identity_eq_identitySpec (model_name : String) (app_name : Option String) :
    identity model_name app_name = identitySpec model_name app_name := by
  unfold identity identitySpec lastDotSegmentSpec
  rw [pySplit_getLastD]

theorem related_none_of_unmapped (item : String × TortoiseField)
    (configs : FieldConfigs)
    (hmap : List.lookup item.2.ftype tortoise2starlette_admin_fields_mapper
      = Option.none)
    (htype : configs.type = Option.none) :
    related_starlette_field item configs = Option.none := by
  simp only [related_starlette_field, htype, hmap]

/-- C1: against the claim that the descending marker "-" appears exactly on
descending directives, the translator emits "-" for EVERY well-formed
directive — ascending ("title asc"), descending ("title desc"), and even the
misspelled "title acs" — because the source compares the whole directive
string with the literal "acs" instead of the parsed direction token. -/
theorem c1_order_by_marker_always_descending :
    starlette_admin_order_by2tortoise_order_by [("title asc").data]
      = some [("-title").data] ∧
    starlette_admin_order_by2tortoise_order_by [("title desc").data]
      = some [("-title").data] ∧
    starlette_admin_order_by2tortoise_order_by [("title acs").data]
      = some [("-title").data] := by
  refine ⟨by decide, by decide, by decide⟩

/-- C3: remove_nones is idempotent — applying it twice to any finitely nested
mapping gives the same result as applying it once. -/
theorem c3_remove_nones_idempotent (d : List (String × PyVal)) :
    remove_nones (remove_nones d) = remove_nones d :=
  remove_nones_idem d

/-- C4: in a mapping with unique keys, every key bound to a non-null value
survives remove_nones with its value preserved (nested dicts recursively
cleaned, other values untouched), and every key bound to null is absent from
the result; as the statement holds for every mapping, it holds in particular
for every nested sub-mapping. -/
theorem c4_remove_nones_key_preservation (d : List (String × PyVal)) (k : String)
    (v : PyVal) (hnd : (d.map Prod.fst).Nodup) (hmem : (k, v) ∈ d) :
    (v ≠ PyVal.pyNone → (k, cleanVal v) ∈ remove_nones d) ∧
    (v = PyVal.pyNone → k ∉ (remove_nones d).map Prod.fst) :=
  ⟨fun hv => mem_remove_nones_of_mem d k v hmem hv,
   fun hv => pyNone_key_not_mem_remove_nones d k hnd (hv ▸ hmem)⟩

/-- Witness for C4 at the concrete mapping
[a ↦ atom 1, b ↦ null, c ↦ [x ↦ null]] and the key "a". -/
theorem c4_remove_nones_key_preservation_witness :
    (PyVal.atom 1 ≠ PyVal.pyNone →
      ("a", cleanVal (PyVal.atom 1)) ∈
        remove_nones [("a", PyVal.atom 1), ("b", PyVal.pyNone),
          ("c", PyVal.dict [("x", PyVal.pyNone)])]) ∧
    (PyVal.atom 1 = PyVal.pyNone →
      "a" ∉ (remove_nones [("a", PyVal.atom 1), ("b", PyVal.pyNone),
        ("c", PyVal.dict [("x", PyVal.pyNone)])]).map Prod.fst) :=
  c4_remove_nones_key_preservation
    [("a", PyVal.atom 1), ("b", PyVal.pyNone), ("c", PyVal.dict [("x", PyVal.pyNone)])]
    "a" (PyVal.atom 1) (by decide) (List.mem_cons_self _ _)

theorem dictInsert_not_mem (l : List (String × α)) (k : String) (v : α)
    (h : k ∉ l.map Prod.fst) : dictInsert l k v = l ++ [(k, v)] := by
  unfold dictInsert
  rw [if_neg]
  simpa using h

theorem foldl_dictInsert_eq_append (f : String → String) (data : List (String × α))
    (acc : List (String × α))
    (hd : ∀ p ∈ data, f p.1 ∉ acc.map Prod.fst)
    (hnd : (data.map (fun p => f p.1)).Nodup) :
    data.foldl (fun a p => dictInsert a (f p.1) p.2) acc
      = acc ++ data.map (fun p => (f p.1, p.2)) := by
  induction data generalizing acc with
  | nil => simp
  | cons p rest ih =>
    simp only [List.foldl_cons]
    rw [dictInsert_not_mem _ _ _ (hd p (List.mem_cons_self _ _))]
    simp only [List.map_cons, List.nodup_cons] at hnd
    rw [ih (acc ++ [(f p.1, p.2)]) ?_ hnd.2]
    · simp
    · intro q hq
      simp only [List.map_append, List.mem_append]
      rintro (hc | hc)
      · exact hd q (List.mem_cons_of_mem _ hq) hc
      · simp only [List.map_cons, List.map_nil, List.mem_singleton] at hc
        exact hnd.1 (hc ▸ List.mem_map_of_mem (fun p => f p.1) hq)

/-- Counterexample to C5 as stated: with data = [a ↦ 1, a_id ↦ 2] and
foreign-key names ["a"], both input keys map to the single output key "a_id",
so the value 1 of the renamed key "a" is NOT preserved — the result is
[a_id ↦ 2]. -/
theorem c5_add_id2fk_counterexample :
    add_id2fk_fields [("a", (1 : Nat)), ("a_id", 2)] ["a"] = [("a_id", 2)] ∧
    ("a_id", (1 : Nat)) ∉ add_id2fk_fields [("a", (1 : Nat)), ("a_id", 2)] ["a"] := by
  refine ⟨by decide, by decide⟩

/-- C5 amended: provided data's keys are unique and the renaming is
collision-free on them (no two distinct keys of data map to the same output
key), add_id2fk_fields maps each key k of data to "k_id" if k is in fields
and leaves k unchanged otherwise, with every value unchanged; and a key not
in the supplied foreign-key name set is never renamed. -/
theorem c5_add_id2fk_renames_only_fk (data : List (String × α))
    (fields : List String) (k : String)
    (hnd : (data.map Prod.fst).Nodup)
    (hinj : ∀ p ∈ data, ∀ q ∈ data,
      add_id2fk_convert fields p.1 = add_id2fk_convert fields q.1 → p.1 = q.1)
    (hk : k ∉ fields) :
    add_id2fk_fields data fields
      = data.map (fun p => (add_id2fk_convert fields p.1, p.2)) ∧
    add_id2fk_convert fields k = k := by
  constructor
  · unfold add_id2fk_fields
    rw [foldl_dictInsert_eq_append (add_id2fk_convert fields) data [] (by simp) ?_]
    · simp
    · have he : data.map (fun p => add_id2fk_convert fields p.1)
          = (data.map Prod.fst).map (add_id2fk_convert fields) := by
        rw [List.map_map]
        rfl
      rw [he]
      refine List.Nodup.map_on ?_ hnd
      intro x hx y hy hxy
      rcases List.mem_map.mp hx with ⟨p, hp, hpx⟩
      rcases List.mem_map.mp hy with ⟨q, hq, hqy⟩
      subst hpx
      subst hqy
      exact hinj p hp q hq hxy
  · simp [add_id2fk_convert, hk]

/-- Witness for the amended C5 at data = [author ↦ 1, title ↦ 2],
foreign-key names ["author"], and the non-foreign-key key "title". -/
theorem c5_add_id2fk_renames_only_fk_witness :
    add_id2fk_fields [("author", (1 : Nat)), ("title", 2)] ["author"]
      = ([("author", (1 : Nat)), ("title", 2)]).map
          (fun p => (add_id2fk_convert ["author"] p.1, p.2)) ∧
    add_id2fk_convert ["author"] "title" = "title" :=
  c5_add_id2fk_renames_only_fk [("author", (1 : Nat)), ("title", 2)] ["author"]
    "title" (by decide) (by decide) (by decide)

/-- C9: add_id2fk_fields can lose entries — here data contains both the key
"a", which is in the foreign-key name set, and the key "a_id"; both map to
the output key "a_id", the result has 1 entry against data's 2, and only the
value of "a_id" survives. -/
theorem c9_add_id2fk_collision_loses_entries :
    "a" ∈ ["a"] ∧
    "a_id" ∈ ([("a", (1 : Nat)), ("a_id", 2)]).map Prod.fst ∧
    add_id2fk_fields [("a", (1 : Nat)), ("a_id", 2)] ["a"] = [("a_id", 2)] ∧
    (add_id2fk_fields [("a", (1 : Nat)), ("a_id", 2)] ["a"]).length
      < ([("a", (1 : Nat)), ("a_id", 2)]).length := by
  refine ⟨by decide, by decide, by decide, by decide⟩

/-- C2: an ORM field whose concrete class is not a key of the mapping table,
with no "type" override in the per-field configuration, makes
related_starlette_field fail with the lookup error instead of returning a
field, and a model containing such a field makes
tortoise_fields2starlette_fields fail as well. -/
theorem c2_unmapped_field_type_fails (nm : String) (field : TortoiseField)
    (configs : FieldConfigs) (model : TortoiseModel) (app : String)
    (kwargs : List (String × FieldConfigs))
    (hmap : List.lookup field.ftype tortoise2starlette_admin_fields_mapper
      = Option.none)
    (htype : configs.type = Option.none)
    (hmem : (nm, field) ∈ model.fields_map)
    (hkw : ((List.lookup nm kwargs).getD defaultConfigs).type = Option.none) :
    related_starlette_field (nm, field) configs = Option.none ∧
    tortoise_fields2starlette_fields model app kwargs = Option.none := by
  constructor
  · exact related_none_of_unmapped (nm, field) configs hmap htype
  · unfold tortoise_fields2starlette_fields
    apply optionTraverse_eq_none_of_mem _ _ (nm, field) hmem
    exact related_none_of_unmapped _ _ hmap hkw

/-- Witness for C2 with a JSONField-like field named "data" in a one-field
model, empty configs and kwargs. -/
theorem c2_unmapped_field_type_fails_witness :
    related_starlette_field
      ("data", ⟨TortoiseFieldType.other "JSONField", true, 0, "", false, false, ""⟩)
      defaultConfigs = Option.none ∧
    tortoise_fields2starlette_fields
      ⟨[("data", ⟨TortoiseFieldType.other "JSONField", true, 0, "", false, false, ""⟩)]⟩
      "" [] = Option.none :=
  c2_unmapped_field_type_fails "data"
    ⟨TortoiseFieldType.other "JSONField", true, 0, "", false, false, ""⟩
    defaultConfigs
    ⟨[("data", ⟨TortoiseFieldType.other "JSONField", true, 0, "", false, false, ""⟩)]⟩
    "" [] (by decide) rfl (List.mem_cons_self _ _) rfl

/-- C6: the mapping table sends foreign-key and one-to-one to the has-one
field and many-to-many to the has-many field; and for a foreign-key or
one-to-one field, related_starlette_field (with only the application prefix
configured) builds a has-one field whose identity is the last dot-separated
segment of the related model's name lowercased, prefixed by the application
prefix and an underscore when that prefix is supplied non-empty and
unprefixed otherwise. -/
theorem c6_relation_fields (nm : String) (field : TortoiseField)
    (app : Option String)
    (hrel : field.ftype = TortoiseFieldType.ForeignKeyFieldInstance ∨
      field.ftype = TortoiseFieldType.OneToOneFieldInstance) :
    List.lookup TortoiseFieldType.ForeignKeyFieldInstance
      tortoise2starlette_admin_fields_mapper = some StarletteFieldCtor.HasOne ∧
    List.lookup TortoiseFieldType.OneToOneFieldInstance
      tortoise2starlette_admin_fields_mapper = some StarletteFieldCtor.HasOne ∧
    List.lookup TortoiseFieldType.ManyToManyFieldInstance
      tortoise2starlette_admin_fields_mapper = some StarletteFieldCtor.HasMany ∧
    ∃ sf, related_starlette_field (nm, field) (configsWithApp app) = some sf ∧
      sf.ctor = StarletteFieldCtor.HasOne ∧
      sf.identity = some (identitySpec field.model_name app) := by
  refine ⟨by decide, by decide, by decide, ?_⟩
  obtain ⟨ft, rq, ml, et, ana, an, mn⟩ := field
  rcases hrel with h | h
  · have hft : ft = TortoiseFieldType.ForeignKeyFieldInstance := h
    subst hft
    refine ⟨_, rfl, rfl, ?_⟩
    show some (identity mn app) = some (identitySpec mn app)
    rw [identity_eq_identitySpec]
  · have hft : ft = TortoiseFieldType.OneToOneFieldInstance := h
    subst hft
    refine ⟨_, rfl, rfl, ?_⟩
    show some (identity mn app) = some (identitySpec mn app)
    rw [identity_eq_identitySpec]

/-- Witness for C6 at a foreign-key field pointing at "models.Author" with
application prefix "blog". -/
theorem c6_relation_fields_witness :
    List.lookup TortoiseFieldType.ForeignKeyFieldInstance
      tortoise2starlette_admin_fields_mapper = some StarletteFieldCtor.HasOne ∧
    List.lookup TortoiseFieldType.OneToOneFieldInstance
      tortoise2starlette_admin_fields_mapper = some StarletteFieldCtor.HasOne ∧
    List.lookup TortoiseFieldType.ManyToManyFieldInstance
      tortoise2starlette_admin_fields_mapper = some StarletteFieldCtor.HasMany ∧
    ∃ sf, related_starlette_field
        ("author", ⟨TortoiseFieldType.ForeignKeyFieldInstance, true, 0, "",
          false, false, "models.Author"⟩)
        (configsWithApp (some "blog")) = some sf ∧
      sf.ctor = StarletteFieldCtor.HasOne ∧
      sf.identity = some (identitySpec "models.Author" (some "blog")) :=
  c6_relation_fields "author"
    ⟨TortoiseFieldType.ForeignKeyFieldInstance, true, 0, "",
      false, false, "models.Author"⟩
    (some "blog") (Or.inl rfl)

/-- C7: for a datetime field (with only the application prefix configured),
the constructed UI field is required exactly when the ORM field is required
and neither auto_now_add nor auto_now is set. -/
theorem c7_datetime_required (nm : String) (field : TortoiseField)
    (app : Option String)
    (hdt : field.ftype = TortoiseFieldType.DatetimeField) :
    ∃ sf, related_starlette_field (nm, field) (configsWithApp app) = some sf ∧
      sf.required = (field.required && !field.auto_now_add && !field.auto_now) := by
  obtain ⟨ft, rq, ml, et, ana, an, mn⟩ := field
  have hft : ft = TortoiseFieldType.DatetimeField := hdt
  subst hft
  exact ⟨_, rfl, rfl⟩

/-- Witness for C7 at a required datetime field with auto_now_add set, whose
UI field therefore comes out not required. -/
theorem c7_datetime_required_witness :
    ∃ sf, related_starlette_field
        ("created_at", ⟨TortoiseFieldType.DatetimeField, true, 0, "",
          true, false, ""⟩)
        (configsWithApp Option.none) = some sf ∧
      sf.required = (true && !true && !false) :=
  c7_datetime_required "created_at"
    ⟨TortoiseFieldType.DatetimeField, true, 0, "", true, false, ""⟩
    Option.none rfl

/-- C8: a username shorter than 3 characters makes the test provider's login
raise a FormValidationError whose username message is
"Ensure username has at least 03 characters", whatever the password, and no
session cookie is set. -/
theorem c8_short_username_validation (username password : String)
    (h : username.length < 3) :
    MyAuthProvider_login username password
      = LoginResult.formValidationError
          [("username", "Ensure username has at least 03 characters")] ∧
    loginCookies (MyAuthProvider_login username password) = [] := by
  unfold MyAuthProvider_login
  rw [if_pos h]
  exact ⟨rfl, rfl⟩

/-- Witness for C8 at the two-character username "ad". -/
theorem c8_short_username_validation_witness :
    MyAuthProvider_login "ad" "secret"
      = LoginResult.formValidationError
          [("username", "Ensure username has at least 03 characters")] ∧
    loginCookies (MyAuthProvider_login "ad" "secret") = [] :=
  c8_short_username_validation "ad" "secret" (by decide)

/-- C10: the order-by translator is total exactly on well-formed input: on a
list of directives each containing exactly one space it returns a tuple of
the same length, while a directive with no space (here "title") makes the
two-way unpacking of the split fail, so the call raises instead of
returning. -/
theorem c10_order_by_totality :
    (∀ order_bys : List (List Char), (∀ o ∈ order_bys, o.count ' ' = 1) →
      ∃ res, starlette_admin_order_by2tortoise_order_by order_bys = some res ∧
        res.length = order_bys.length) ∧
    starlette_admin_order_by2tortoise_order_by [("title").data] = Option.none := by
  constructor
  · intro obs h
    exact optionTraverse_length _ _ (fun o ho => convertOrderBy_isSome o (h o ho))
  · rfl

/-- Witness for C10 at the concrete well-formed input ["id asc"]. -/
theorem c10_order_by_totality_witness :
    (∃ res, starlette_admin_order_by2tortoise_order_by [("id asc").data] = some res ∧
      res.length = 1) ∧
    starlette_admin_order_by2tortoise_order_by [("title").data] = Option.none :=
  ⟨c10_order_by_totality.1 [("id asc").data] (by decide),
   c10_order_by_totality.2⟩

end StarletteAdminTortoise
